import Mathlib

/-!
Verification of the GHC RTS I/O-manager abstraction layer (rts/IOManager.h).

The header centralises the build-configuration logic that decides which I/O
manager implementations are compiled in (`IOMGR_ENABLED_*`), the default
manager string (`IOMGR_DEFAULT_STR`), the diagnostic list of enabled managers
(`IOMGRS_ENABLED_STR`), the `IOManagerType` enumeration, the tri-state
`IOManagerAvailability` result of flag parsing, the shape of the per-capability
`CapIOManager` structure, and the synchronous suspend/cancel operations
(`syncIOWaitReady`, `syncIOCancel`, `syncDelay`, `syncDelayCancel`,
`appendToIOBlockedQueue`, `anyPendingTimeoutsOrIO`).

The preprocessor configuration is embedded as a structure of booleans
(`BuildConfig`), one per CPP flag, and each derived CPP definition becomes a
Lean function of that structure, translated clause by clause from the header.
The operations are declared in the header but their bodies live in IOManager.c
and posix/Select.c, which are not part of this repository snapshot; those are
modelled from the specification and are marked `Modelled from the spec:` in
their doc comments.
-/

/-- The CPP flags relevant to the I/O manager, as one record: the
`IOMGR_BUILD_<name>` flags from ./configure, the per-way default flags
`IOMGR_DEFAULT_{NON_}THREADED_<name>`, and the RTS-way / platform flags
`THREADED_RTS` and `mingw32_HOST_OS` (IOManager.h lines 27-42). -/
structure BuildConfig where
  iomgr_build_select : Bool
  iomgr_build_mio : Bool
  iomgr_build_winio : Bool
  iomgr_build_win32_legacy : Bool
  threaded_rts : Bool
  mingw32_host_os : Bool
  iomgr_default_threaded_mio : Bool
  iomgr_default_threaded_winio : Bool
  iomgr_default_non_threaded_select : Bool
  iomgr_default_non_threaded_winio : Bool
  iomgr_default_non_threaded_win32_legacy : Bool
deriving DecidableEq

/-- IOManager.h lines 44-46: `IOMGR_ENABLED_SELECT` is defined iff
`IOMGR_BUILD_SELECT` is defined and `THREADED_RTS` is not. -/
def enabledSelect (c : BuildConfig) : Bool :=
  c.iomgr_build_select && !c.threaded_rts

/-- IOManager.h lines 47-61: under `IOMGR_BUILD_MIO && THREADED_RTS`, MIO
resolves to the Windows form when `mingw32_HOST_OS` is defined. -/
def enabledMioWin32 (c : BuildConfig) : Bool :=
  c.iomgr_build_mio && c.threaded_rts && c.mingw32_host_os

/-- IOManager.h lines 47-61: under `IOMGR_BUILD_MIO && THREADED_RTS`, MIO
resolves to the POSIX form when `mingw32_HOST_OS` is not defined. -/
def enabledMioPosix (c : BuildConfig) : Bool :=
  c.iomgr_build_mio && c.threaded_rts && !c.mingw32_host_os

/-- IOManager.h lines 62-64: `IOMGR_ENABLED_WINIO` is defined iff
`IOMGR_BUILD_WINIO` is defined (both RTS ways). -/
def enabledWinio (c : BuildConfig) : Bool :=
  c.iomgr_build_winio

/-- IOManager.h lines 65-67: `IOMGR_ENABLED_WIN32_LEGACY` is defined iff
`IOMGR_BUILD_WIN32_LEGACY` is defined and `THREADED_RTS` is not. -/
def enabledWin32Legacy (c : BuildConfig) : Bool :=
  c.iomgr_build_win32_legacy && !c.threaded_rts

/-- IOManager.h lines 75-93: `IOMGR_DEFAULT_STR`, the name of the default I/O
manager for the current RTS way. The `#error` branches (no default configured)
are represented by `none`: such a configuration fails at build time, so no
runtime value exists for it. -/
def iomgrDefaultStr (c : BuildConfig) : Option String :=
  if c.threaded_rts then
    if c.iomgr_default_threaded_mio then some "mio"
    else if c.iomgr_default_threaded_winio then some "winio"
    else none
  else
    if c.iomgr_default_non_threaded_select then some "select"
    else if c.iomgr_default_non_threaded_winio then some "winio"
    else if c.iomgr_default_non_threaded_win32_legacy then some "win32-legacy"
    else none

/-- IOManager.h lines 99-103: `IOMGR_ENABLED_STR_SELECT`. -/
def iomgrEnabledStrSelect (c : BuildConfig) : String :=
  if enabledSelect c then " select" else ""

/-- IOManager.h lines 104-108: `IOMGR_ENABLED_STR_MIO` (present when either
MIO form is enabled). -/
def iomgrEnabledStrMio (c : BuildConfig) : String :=
  if enabledMioPosix c || enabledMioWin32 c then " mio" else ""

/-- IOManager.h lines 109-113: `IOMGR_ENABLED_STR_WINIO`. -/
def iomgrEnabledStrWinio (c : BuildConfig) : String :=
  if enabledWinio c then " winio" else ""

/-- IOManager.h lines 114-118: `IOMGR_ENABLED_STR_WIN32_LEGACY`. -/
def iomgrEnabledStrWin32Legacy (c : BuildConfig) : String :=
  if enabledWin32Legacy c then " win32-legacy" else ""

/-- IOManager.h lines 119-123: `IOMGRS_ENABLED_STR`, the concatenation of the
four conditional name strings (leading and separating spaces). -/
def iomgrsEnabledStr (c : BuildConfig) : String :=
  iomgrEnabledStrSelect c ++ iomgrEnabledStrMio c
    ++ iomgrEnabledStrWinio c ++ iomgrEnabledStrWin32Legacy c

/-- IOManager.h lines 129-145: the `IOManagerType` enumeration. The C enum
only declares the constructors whose `IOMGR_ENABLED_*` flag is defined; here
all five exist and `ioManagerTypeMembers` gives the members present for a
given build configuration. -/
inductive IOManagerType where
  | io_manager_select
  | io_manager_mio_posix
  | io_manager_mio_win32
  | io_manager_winio
  | io_manager_win32_legacy
deriving DecidableEq, Fintype

/-- The members of the C `IOManagerType` enum for configuration `c`, in
declaration order: each constructor appears iff its guard at IOManager.h
lines 130-144 holds. -/
def ioManagerTypeMembers (c : BuildConfig) : List IOManagerType :=
  (if enabledSelect c then [IOManagerType.io_manager_select] else [])
    ++ (if enabledMioPosix c then [IOManagerType.io_manager_mio_posix] else [])
    ++ (if enabledMioWin32 c then [IOManagerType.io_manager_mio_win32] else [])
    ++ (if enabledWinio c then [IOManagerType.io_manager_winio] else [])
    ++ (if enabledWin32Legacy c then [IOManagerType.io_manager_win32_legacy] else [])

/-- Which `IOMGR_ENABLED_*` flag guards each enum member (IOManager.h
lines 130-144). -/
def enabledFor (c : BuildConfig) : IOManagerType → Bool
  | .io_manager_select => enabledSelect c
  | .io_manager_mio_posix => enabledMioPosix c
  | .io_manager_mio_win32 => enabledMioWin32 c
  | .io_manager_winio => enabledWinio c
  | .io_manager_win32_legacy => enabledWin32Legacy c

/-- IOManager.h lines 167-171: the tri-state result of `parseIOManagerFlag`. -/
inductive IOManagerAvailability where
  | IOManagerAvailable
  | IOManagerUnavailable
  | IOManagerUnrecognised
deriving DecidableEq

/-- The I/O manager names recognised by the flag parser: exactly the four
named I/O managers of the header ("select", "mio", "winio", "win32-legacy"). -/
def knownIOManagerNames : List String :=
  ["select", "mio", "winio", "win32-legacy"]

/-- Modelled from the spec: the body of `parseIOManagerFlag` lives in
IOManager.c, which is not in this repository snapshot; only its prototype
(IOManager.h lines 159-173) is. Per spec section 4.1: a name naming a
compiled-in, platform-appropriate variant yields Available and records that
variant; a known name not compiled in for this build yields Unavailable; an
unknown name yields Unrecognised. For "mio" the enabled form (POSIX or
Windows, per IOManager.h lines 47-61) is recorded. -/
def parseIOManagerFlag (c : BuildConfig) (iomgrstr : String) :
    IOManagerAvailability × Option IOManagerType :=
  if iomgrstr = "select" then
    if enabledSelect c then
      (.IOManagerAvailable, some .io_manager_select)
    else (.IOManagerUnavailable, none)
  else if iomgrstr = "mio" then
    if enabledMioPosix c then
      (.IOManagerAvailable, some .io_manager_mio_posix)
    else if enabledMioWin32 c then
      (.IOManagerAvailable, some .io_manager_mio_win32)
    else (.IOManagerUnavailable, none)
  else if iomgrstr = "winio" then
    if enabledWinio c then
      (.IOManagerAvailable, some .io_manager_winio)
    else (.IOManagerUnavailable, none)
  else if iomgrstr = "win32-legacy" then
    if enabledWin32Legacy c then
      (.IOManagerAvailable, some .io_manager_win32_legacy)
    else (.IOManagerUnavailable, none)
  else (.IOManagerUnrecognised, none)

/-- The names of the I/O managers enabled in configuration `c`, in the order
`IOMGRS_ENABLED_STR` concatenates them (IOManager.h lines 119-123); the two
MIO forms share the single public name "mio" (lines 104-108). -/
def enabledIOManagerNames (c : BuildConfig) : List String :=
  (if enabledSelect c then ["select"] else [])
    ++ (if enabledMioPosix c || enabledMioWin32 c then ["mio"] else [])
    ++ (if enabledWinio c then ["winio"] else [])
    ++ (if enabledWin32Legacy c then ["win32-legacy"] else [])

/-- Modelled from the spec: the selection step that runs when no explicit
manager name is supplied is in IOManager.c, not in this snapshot. Per spec
section 4.1, an omitted name means "use the build default", i.e. the
`IOMGR_DEFAULT_STR` name (IOManager.h lines 75-93); a configuration without
a default never reaches runtime (the header's `#error` aborts the build),
represented here by `none`. -/
def resolveManager (c : BuildConfig) (req : Option String) :
    Option (IOManagerAvailability × Option IOManagerType) :=
  match req with
  | some s => some (parseIOManagerFlag c s)
  | none => (iomgrDefaultStr c).map (fun d => parseIOManagerFlag c d)

/-- Which field groups the conditionally-compiled `CapIOManager` struct
(IOManager.h lines 191-214) contains for a given build configuration. -/
structure CapIOManagerShape where
  has_blocked_queue_hd : Bool
  has_blocked_queue_tl : Bool
  has_sleeping_queue : Bool
  has_control_fd : Bool
deriving DecidableEq

/-- The shape of `CapIOManager` for configuration `c`, clause by clause from
IOManager.h lines 191-214: the blocked-on-I/O queue head/tail fields exist
under `IOMGR_ENABLED_SELECT` (lines 193-200) or `IOMGR_ENABLED_WIN32_LEGACY`
(lines 202-206); the timeout `sleeping_queue` only under
`IOMGR_ENABLED_SELECT` (lines 198-199); the `control_fd` only under
`IOMGR_ENABLED_MIO_POSIX` (lines 208-212). -/
def capIOManagerShape (c : BuildConfig) : CapIOManagerShape where
  has_blocked_queue_hd := enabledSelect c || enabledWin32Legacy c
  has_blocked_queue_tl := enabledSelect c || enabledWin32Legacy c
  has_sleeping_queue := enabledSelect c
  has_control_fd := enabledMioPosix c

/-- Modelled from the spec: the operational content of the select-style
`CapIOManager` (IOManager.h lines 193-200). The intrusive `StgTSO` queue
from `blocked_queue_hd` to `blocked_queue_tl` is a list of thread ids in
arrival order; `sleeping_queue` is a list of (thread id, absolute wake
deadline) pairs kept ordered by deadline. The queue-manipulating bodies are
in IOManager.c / posix/Select.c, not in this snapshot. -/
structure CapIOManager where
  blocked_queue : List Nat
  sleeping_queue : List (Nat × Int)
deriving DecidableEq

/-- IOManager.h line 278: enum used to share read/write code paths. -/
inductive IOReadOrWrite where
  | IORead
  | IOWrite
deriving DecidableEq

/-- Modelled from the spec: the body of `appendToIOBlockedQueue` (declared at
IOManager.h lines 293-300 with the comment "Add a thread to the end of the
queue of threads blocked on I/O") is in IOManager.c. It appends the thread at
the tail of the blocked-on-I/O queue and touches nothing else. -/
def appendToIOBlockedQueue (iomgr : CapIOManager) (tso : Nat) : CapIOManager :=
  CapIOManager.mk (iomgr.blocked_queue ++ [tso]) iomgr.sleeping_queue

/-- Whether `appendToIOBlockedQueue` is declared at all: IOManager.h line 293
guards the prototype with
`defined(IOMGR_ENABLED_SELECT) || defined(IOMGR_ENABLED_WIN32_LEGACY)`. -/
def appendToIOBlockedQueueDeclared (c : BuildConfig) : Bool :=
  enabledSelect c || enabledWin32Legacy c

/-- Modelled from the spec: the body of `syncIOWaitReady` (IOManager.h
line 285) is in IOManager.c. Per spec section 4.3 it records the thread as
waiting for readiness of the descriptor; for the select-style state this
appends the thread to the blocked-on-I/O queue (arrival order). The
descriptor and direction are not part of the modelled queue. -/
def syncIOWaitReady (iomgr : CapIOManager) (tso : Nat)
    (_rw : IOReadOrWrite) (_fd : Int) : CapIOManager :=
  appendToIOBlockedQueue iomgr tso

/-- Modelled from the spec: the body of `syncIOCancel` (IOManager.h line 287)
is in IOManager.c. Per spec section 4.3 it removes the thread's wait
registration if still pending and is a no-op when the thread is not
registered. -/
def syncIOCancel (iomgr : CapIOManager) (tso : Nat) : CapIOManager :=
  CapIOManager.mk (iomgr.blocked_queue.erase tso) iomgr.sleeping_queue

/-- Modelled from the spec: insertion into the select-style `sleeping_queue`
(IOManager.h lines 198-199); the inserting code is in posix/Select.c. Per
spec section 4.3 the queue is ordered by absolute deadline, and a wait with a
deadline equal to existing ones goes after them (identical deadlines wake in
registration order). -/
def insertSleepingQueue (e : Nat × Int) : List (Nat × Int) → List (Nat × Int)
  | [] => [e]
  | x :: xs =>
      if x.2 ≤ e.2 then x :: insertSleepingQueue e xs
      else e :: x :: xs

/-- The sleeping queue that results from registering the timer waits `regs`
(in list order) into queue `q`, each via `insertSleepingQueue`. -/
def registerDelays (q : List (Nat × Int)) (regs : List (Nat × Int)) :
    List (Nat × Int) :=
  regs.foldl (fun acc e => insertSleepingQueue e acc) q

/-- The caller-visible outcome of `syncDelay`: either the wait resolved
immediately (the thread stays runnable) or the thread was suspended on the
sleeping queue. -/
inductive DelayOutcome where
  | delayResolvedImmediately
  | delayQueued
deriving DecidableEq

/-- Modelled from the spec: the body of `syncDelay` (IOManager.h line 289) is
in IOManager.c. Per spec section 4.3 it registers a timer wait ordered by
absolute deadline (`now + us_delay`), and a zero or negative delay resolves
immediately: the wait is instantly ready, not an error, and the thread is
never enqueued. -/
def syncDelay (now : Int) (iomgr : CapIOManager) (tso : Nat) (us_delay : Int) :
    CapIOManager × DelayOutcome :=
  if us_delay ≤ 0 then (iomgr, .delayResolvedImmediately)
  else
    (CapIOManager.mk iomgr.blocked_queue
        (insertSleepingQueue (tso, now + us_delay) iomgr.sleeping_queue),
      .delayQueued)

/-- Modelled from the spec: the body of `syncDelayCancel` (IOManager.h
line 291) is in IOManager.c. Symmetric to `syncIOCancel`: it removes the
thread's timer registrations, a no-op when none exist. -/
def syncDelayCancel (iomgr : CapIOManager) (tso : Nat) : CapIOManager :=
  CapIOManager.mk iomgr.blocked_queue
    (iomgr.sleeping_queue.filter (fun e => e.1 != tso))

/-- Modelled from the spec: the body of `anyPendingTimeoutsOrIO` (declared at
IOManager.h lines 302-308) is in IOManager.c. Per spec section 4.4 it is a
pure query, true iff at least one thread is currently suspended on this
worker, i.e. iff either the blocked-on-I/O queue or the sleeping queue is
non-empty. -/
def anyPendingTimeoutsOrIO (iomgr : CapIOManager) : Bool :=
  !iomgr.blocked_queue.isEmpty || !iomgr.sleeping_queue.isEmpty

/-- The threads currently in a Suspended state on a worker: those blocked on
I/O completion plus those blocked on a timer. -/
def suspendedThreads (iomgr : CapIOManager) : List Nat :=
  iomgr.blocked_queue ++ iomgr.sleeping_queue.map Prod.fst

/-- The process-wide RTS state the I/O manager touches: the write-once
`iomgr_type` global (IOManager.h lines 147-148) and the per-capability
I/O-manager state (one capability modelled). -/
structure RtsState where
  iomgr_type : IOManagerType
  worker : CapIOManager
deriving DecidableEq

/-- The I/O-manager operations the RTS invokes after startup (the synchronous
operations of IOManager.h lines 280-300). -/
inductive RtsOp where
  | op_syncIOWaitReady (tso : Nat) (rw : IOReadOrWrite) (fd : Int)
  | op_syncIOCancel (tso : Nat)
  | op_syncDelay (now : Int) (tso : Nat) (us_delay : Int)
  | op_syncDelayCancel (tso : Nat)
  | op_appendToIOBlockedQueue (tso : Nat)
deriving DecidableEq

/-- One post-startup step of the RTS: every operation acts on the
per-capability I/O state; none of them writes the `iomgr_type` global, which
is set once during flag processing (IOManager.h lines 147-148, 159-173). -/
def rtsStep (s : RtsState) : RtsOp → RtsState
  | .op_syncIOWaitReady tso rw fd =>
      RtsState.mk s.iomgr_type (syncIOWaitReady s.worker tso rw fd)
  | .op_syncIOCancel tso =>
      RtsState.mk s.iomgr_type (syncIOCancel s.worker tso)
  | .op_syncDelay now tso us_delay =>
      RtsState.mk s.iomgr_type (syncDelay now s.worker tso us_delay).1
  | .op_syncDelayCancel tso =>
      RtsState.mk s.iomgr_type (syncDelayCancel s.worker tso)
  | .op_appendToIOBlockedQueue tso =>
      RtsState.mk s.iomgr_type (appendToIOBlockedQueue s.worker tso)

/-- Run a sequence of post-startup RTS operations. -/
def rtsRun (s : RtsState) (ops : List RtsOp) : RtsState :=
  ops.foldl rtsStep s

/-- Modelled from the spec: the scheduler-visible state machine of one
blocked thread (spec section 4.3):
Running, Suspended, then exactly one of Completed or Cancelled. -/
inductive ThreadWaitState where
  | waitRunning
  | waitSuspended
  | waitCompleted
  | waitCancelled
deriving DecidableEq

/-- The two events that can resolve a wait: the backend delivering the
completion, and `syncIOCancel` cancelling it. -/
inductive WaitEvent where
  | evComplete
  | evCancel
deriving DecidableEq

/-- Modelled from the spec: the per-wait transition function of spec
section 4.3. A suspended thread is completed by a delivery and cancelled by a
cancel; on an unregistered thread (still running, or already resolved) both
events are no-ops: a completion must observe "already cancelled" and never
double-wake, and a cancel of an unregistered thread does nothing. -/
def waitStep : ThreadWaitState → WaitEvent → ThreadWaitState
  | .waitSuspended, .evComplete => .waitCompleted
  | .waitSuspended, .evCancel => .waitCancelled
  | st, _ => st

/-- Whether a wait state is resolved (Completed or Cancelled). -/
def isResolvedWait : ThreadWaitState → Bool
  | .waitCompleted => true
  | .waitCancelled => true
  | _ => false

/-- How many events of `evs` transition the thread from an unresolved state
into a resolved one, starting from state `st`. -/
def resolutionCount : ThreadWaitState → List WaitEvent → Nat
  | _, [] => 0
  | st, e :: es =>
      (if isResolvedWait st = false ∧ isResolvedWait (waitStep st e) = true
        then 1 else 0)
      + resolutionCount (waitStep st e) es

/-! ## Helper lemmas -/

/-- Case exhaustion for the tri-state availability enum. -/
theorem availability_cases (a : IOManagerAvailability) :
    a = IOManagerAvailability.IOManagerAvailable
    ∨ a = IOManagerAvailability.IOManagerUnavailable
    ∨ a = IOManagerAvailability.IOManagerUnrecognised := by
  cases a <;> simp

/-- Inserting into the sleeping queue keeps the old entries, in order. -/
theorem sublist_insertSleepingQueue (e : Nat × Int) (q : List (Nat × Int)) :
    List.Sublist q (insertSleepingQueue e q) := by
  induction q with
  | nil => simp [insertSleepingQueue]
  | cons x xs ih =>
      simp only [insertSleepingQueue]
      split
      · exact List.Sublist.cons₂ x ih
      · exact List.sublist_cons_self e (x :: xs)

/-- The inserted entry is in the resulting sleeping queue. -/
theorem mem_insertSleepingQueue_self (e : Nat × Int) (q : List (Nat × Int)) :
    e ∈ insertSleepingQueue e q := by
  induction q with
  | nil => simp [insertSleepingQueue]
  | cons x xs ih =>
      simp only [insertSleepingQueue]
      split
      · exact List.mem_cons_of_mem x ih
      · exact List.mem_cons_self e (x :: xs)

/-- Membership in the sleeping queue after an insertion. -/
theorem mem_insertSleepingQueue_iff (a e : Nat × Int) (q : List (Nat × Int)) :
    a ∈ insertSleepingQueue e q ↔ a = e ∨ a ∈ q := by
  induction q with
  | nil => simp [insertSleepingQueue]
  | cons x xs ih =>
      simp only [insertSleepingQueue]
      split
      · simp only [List.mem_cons, ih]
        tauto
      · simp only [List.mem_cons]

/-- Sleeping-queue insertion preserves ordering by wake deadline. -/
theorem pairwise_insertSleepingQueue (e : Nat × Int) (q : List (Nat × Int))
    (h : q.Pairwise (fun u v => u.2 ≤ v.2)) :
    (insertSleepingQueue e q).Pairwise (fun u v => u.2 ≤ v.2) := by
  induction q with
  | nil => simp [insertSleepingQueue]
  | cons x xs ih =>
      rw [List.pairwise_cons] at h
      obtain ⟨hx, hxs⟩ := h
      simp only [insertSleepingQueue]
      split
      · rename_i hcond
        rw [List.pairwise_cons]
        refine ⟨?_, ih hxs⟩
        intro b hb
        rcases (mem_insertSleepingQueue_iff b e xs).mp hb with hb | hb
        · subst hb
          exact hcond
        · exact hx b hb
      · rename_i hcond
        rw [List.pairwise_cons]
        constructor
        · intro b hb
          rcases List.mem_cons.mp hb with rfl | hb
          · show e.2 ≤ b.2
            omega
          · have h1 : x.2 ≤ b.2 := hx b hb
            show e.2 ≤ b.2
            omega
        · exact List.pairwise_cons.mpr ⟨hx, hxs⟩

/-- An entry already in the (sorted) sleeping queue with a deadline at most
the new entry's deadline stays in front of the new entry. -/
theorem before_insertSleepingQueue (a e : Nat × Int) (q : List (Nat × Int))
    (hq : q.Pairwise (fun u v => u.2 ≤ v.2)) (ha : a ∈ q) (hle : a.2 ≤ e.2) :
    List.Sublist [a, e] (insertSleepingQueue e q) := by
  induction q with
  | nil => cases ha
  | cons x xs ih =>
      rw [List.pairwise_cons] at hq
      obtain ⟨hx, hxs⟩ := hq
      simp only [insertSleepingQueue]
      split
      · rename_i hcond
        rcases List.mem_cons.mp ha with rfl | haxs
        · exact List.Sublist.cons₂ a
            (List.singleton_sublist.mpr (mem_insertSleepingQueue_self e xs))
        · exact List.Sublist.cons x (ih hxs haxs)
      · rename_i hcond
        rcases List.mem_cons.mp ha with rfl | haxs
        · exact absurd hle hcond
        · have h1 : x.2 ≤ a.2 := hx a haxs
          exact absurd (le_trans h1 hle) hcond

/-- A new entry with a deadline strictly earlier than an entry of the
(sorted) sleeping queue goes in front of that entry. -/
theorem after_insertSleepingQueue (a e : Nat × Int) (q : List (Nat × Int))
    (hq : q.Pairwise (fun u v => u.2 ≤ v.2)) (ha : a ∈ q) (hlt : e.2 < a.2) :
    List.Sublist [e, a] (insertSleepingQueue e q) := by
  induction q with
  | nil => cases ha
  | cons x xs ih =>
      rw [List.pairwise_cons] at hq
      obtain ⟨hx, hxs⟩ := hq
      simp only [insertSleepingQueue]
      split
      · rename_i hcond
        rcases List.mem_cons.mp ha with rfl | haxs
        · exact absurd hcond (not_le.mpr hlt)
        · exact List.Sublist.cons x (ih hxs haxs)
      · exact List.Sublist.cons₂ e (List.singleton_sublist.mpr ha)

/-- Registering one more delay first is the same as folding from the
extended queue. -/
theorem registerDelays_cons (q : List (Nat × Int)) (e : Nat × Int)
    (es : List (Nat × Int)) :
    registerDelays q (e :: es) = registerDelays (insertSleepingQueue e q) es :=
  rfl

/-- Splitting a registration sequence. -/
theorem registerDelays_append (q : List (Nat × Int))
    (l1 l2 : List (Nat × Int)) :
    registerDelays q (l1 ++ l2) = registerDelays (registerDelays q l1) l2 := by
  simp [registerDelays, List.foldl_append]

/-- Registering delays preserves any sublist of the starting queue. -/
theorem registerDelays_sublist (regs : List (Nat × Int)) :
    ∀ (q l : List (Nat × Int)), List.Sublist l q →
      List.Sublist l (registerDelays q regs) := by
  induction regs with
  | nil => intro q l h; exact h
  | cons e es ih =>
      intro q l h
      rw [registerDelays_cons]
      exact ih (insertSleepingQueue e q) l
        (h.trans (sublist_insertSleepingQueue e q))

/-- Registering delays preserves membership in the queue. -/
theorem registerDelays_mem (regs : List (Nat × Int)) :
    ∀ (q : List (Nat × Int)) (a : Nat × Int), a ∈ q →
      a ∈ registerDelays q regs := by
  intro q a ha
  exact List.singleton_sublist.mp
    (registerDelays_sublist regs q [a] (List.singleton_sublist.mpr ha))

/-- Registering delays preserves ordering by wake deadline. -/
theorem registerDelays_pairwise (regs : List (Nat × Int)) :
    ∀ (q : List (Nat × Int)), q.Pairwise (fun u v => u.2 ≤ v.2) →
      (registerDelays q regs).Pairwise (fun u v => u.2 ≤ v.2) := by
  induction regs with
  | nil => intro q h; exact h
  | cons e es ih =>
      intro q h
      rw [registerDelays_cons]
      exact ih (insertSleepingQueue e q) (pairwise_insertSleepingQueue e q h)

/-- Once a wait is resolved, no further event changes the count. -/
theorem resolutionCount_of_resolved (evs : List WaitEvent) :
    ∀ st, isResolvedWait st = true → resolutionCount st evs = 0 := by
  induction evs with
  | nil => intro st _; rfl
  | cons e es ih =>
      intro st h
      have hstep : waitStep st e = st := by
        cases st
        · simp [isResolvedWait] at h
        · simp [isResolvedWait] at h
        · cases e <;> rfl
        · cases e <;> rfl
      rw [resolutionCount, hstep, ih st h]
      simp [h]

/-- Appending threads one by one to the blocked queue preserves arrival
order. -/
theorem blocked_queue_foldl (arrivals : List Nat) :
    ∀ (q : List Nat) (sq : List (Nat × Int)),
      (arrivals.foldl (fun m t => appendToIOBlockedQueue m t)
          (CapIOManager.mk q sq)).blocked_queue = q ++ arrivals := by
  induction arrivals with
  | nil => intro q sq; simp
  | cons a as ih =>
      intro q sq
      rw [List.foldl_cons]
      show (as.foldl (fun m t => appendToIOBlockedQueue m t)
          (CapIOManager.mk (q ++ [a]) sq)).blocked_queue = q ++ a :: as
      rw [ih (q ++ [a]) sq, List.append_assoc, List.singleton_append]

/-! ## Claim theorems -/

/-- C1: for every requested backend name and build configuration,
`parseIOManagerFlag` returns exactly one of Available, Unavailable or
Unrecognised; when it returns Available exactly one backend variant is
recorded (some enabled member of `IOManagerType`), and no post-startup RTS
operation ever changes the recorded `iomgr_type`, so the active variant
persists for the remaining process lifetime. -/
theorem parseIOManagerFlag_resolution (c : BuildConfig) (s : String) :
    ((parseIOManagerFlag c s).1 = IOManagerAvailability.IOManagerAvailable
        ∨ (parseIOManagerFlag c s).1 = IOManagerAvailability.IOManagerUnavailable
        ∨ (parseIOManagerFlag c s).1 = IOManagerAvailability.IOManagerUnrecognised)
    ∧ ((parseIOManagerFlag c s).1 = IOManagerAvailability.IOManagerAvailable
        ↔ ∃ v, (parseIOManagerFlag c s).2 = some v)
    ∧ (∀ v, (parseIOManagerFlag c s).2 = some v → enabledFor c v = true)
    ∧ (∀ v w, (parseIOManagerFlag c s).2 = some v →
        (parseIOManagerFlag c s).2 = some w → v = w)
    ∧ (∀ (st : RtsState) (ops : List RtsOp),
        (rtsRun st ops).iomgr_type = st.iomgr_type) := by
  refine ⟨availability_cases _, ?_, ?_, ?_, ?_⟩
  · unfold parseIOManagerFlag
    split_ifs <;> simp
  · unfold parseIOManagerFlag
    split_ifs with h1 h2 h3 h4 h5 h6 h7 h8 h9 <;>
      intro v hv <;> simp only [Option.some.injEq] at hv <;>
      subst hv <;> simp [enabledFor, *]
  · intro v w hv hw
    rw [hv] at hw
    exact Option.some.inj hw
  · intro st ops
    induction ops generalizing st with
    | nil => rfl
    | cons op rest ih =>
        have hrun : rtsRun st (op :: rest) = rtsRun (rtsStep st op) rest := rfl
        rw [hrun, ih (rtsStep st op)]
        cases op <;> rfl

/-- C2: for every nonempty sequence of completion/cancellation events
delivered to a thread suspended by `syncIOWaitReady`, the thread transitions
out of Suspended to Completed or Cancelled exactly once (never both, never
neither): the first event resolves it and every later event is a no-op, a
completion never wakes a cancelled thread, a resolved thread is never
resolved again, and `syncIOCancel` on a thread that is not registered leaves
the per-worker state unchanged. -/
theorem exactly_once_resolution (evs : List WaitEvent) (h : evs ≠ []) :
    resolutionCount ThreadWaitState.waitSuspended evs = 1
    ∧ (∀ e, isResolvedWait (waitStep ThreadWaitState.waitSuspended e) = true)
    ∧ waitStep ThreadWaitState.waitRunning WaitEvent.evCancel
        = ThreadWaitState.waitRunning
    ∧ waitStep ThreadWaitState.waitCancelled WaitEvent.evComplete
        = ThreadWaitState.waitCancelled
    ∧ waitStep ThreadWaitState.waitCompleted WaitEvent.evComplete
        = ThreadWaitState.waitCompleted
    ∧ (∀ (iomgr : CapIOManager) (tso : Nat), tso ∉ iomgr.blocked_queue →
        syncIOCancel iomgr tso = iomgr) := by
  refine ⟨?_, ?_, rfl, rfl, rfl, ?_⟩
  · rcases List.exists_cons_of_ne_nil h with ⟨e, es, rfl⟩
    cases e <;>
      simp [resolutionCount, waitStep, isResolvedWait,
        resolutionCount_of_resolved es ThreadWaitState.waitCompleted rfl,
        resolutionCount_of_resolved es ThreadWaitState.waitCancelled rfl]
  · intro e
    cases e <;> rfl
  · intro iomgr tso htso
    obtain ⟨bq, sq⟩ := iomgr
    simp only [syncIOCancel]
    rw [List.erase_of_not_mem htso]

/-- Witness for C2 at the concrete event sequence `[evCancel]`. -/
theorem exactly_once_resolution_witness :
    resolutionCount ThreadWaitState.waitSuspended [WaitEvent.evCancel] = 1
    ∧ (∀ e, isResolvedWait (waitStep ThreadWaitState.waitSuspended e) = true)
    ∧ waitStep ThreadWaitState.waitRunning WaitEvent.evCancel
        = ThreadWaitState.waitRunning
    ∧ waitStep ThreadWaitState.waitCancelled WaitEvent.evComplete
        = ThreadWaitState.waitCancelled
    ∧ waitStep ThreadWaitState.waitCompleted WaitEvent.evComplete
        = ThreadWaitState.waitCompleted
    ∧ (∀ (iomgr : CapIOManager) (tso : Nat), tso ∉ iomgr.blocked_queue →
        syncIOCancel iomgr tso = iomgr) :=
  exactly_once_resolution [WaitEvent.evCancel] (by decide)

/-- C5: a zero or negative microsecond delay passed to `syncDelay` resolves
the wait immediately: the outcome is `delayResolvedImmediately` (not an
error - the outcome type has no error alternative) and the per-worker state
is unchanged, so the thread is runnable without any real time advance. -/
theorem syncDelay_nonpositive_immediate (now : Int) (iomgr : CapIOManager)
    (tso : Nat) (us_delay : Int) (h : us_delay ≤ 0) :
    (syncDelay now iomgr tso us_delay).2 = DelayOutcome.delayResolvedImmediately
    ∧ (syncDelay now iomgr tso us_delay).1 = iomgr := by
  simp [syncDelay, h]

/-- Witness for C5 at a concrete negative delay. -/
theorem syncDelay_nonpositive_immediate_witness :
    (syncDelay 100 (CapIOManager.mk [] []) 7 (-3)).2
        = DelayOutcome.delayResolvedImmediately
    ∧ (syncDelay 100 (CapIOManager.mk [] []) 7 (-3)).1
        = CapIOManager.mk [] [] :=
  syncDelay_nonpositive_immediate 100 (CapIOManager.mk [] []) 7 (-3) (by decide)

/-- C3: for every pair of timer waits registered on the same worker's
sleeping queue (the queue `syncDelay` inserts into), a wait with a strictly
earlier deadline is delivered no later than the other in queue order, and
two waits with identical deadlines are delivered in registration order: in
the queue built from any registration sequence, the earlier-registered entry
precedes the later one whenever its deadline is less than or equal, and
follows it whenever its deadline is strictly greater; a positive delay
enters the queue exactly by `insertSleepingQueue`. -/
theorem syncDelay_wake_order (pre mid post : List (Nat × Int))
    (t1 t2 : Nat) (d1 d2 : Int) :
    (d1 ≤ d2 → List.Sublist [(t1, d1), (t2, d2)]
        (registerDelays [] ((pre ++ ((t1, d1) :: mid)) ++ ((t2, d2) :: post))))
    ∧ (d2 < d1 → List.Sublist [(t2, d2), (t1, d1)]
        (registerDelays [] ((pre ++ ((t1, d1) :: mid)) ++ ((t2, d2) :: post))))
    ∧ (∀ (now : Int) (iomgr : CapIOManager) (tso : Nat) (us_delay : Int),
        0 < us_delay →
        (syncDelay now iomgr tso us_delay).1.sleeping_queue
          = insertSleepingQueue (tso, now + us_delay) iomgr.sleeping_queue) := by
  have hq2 : (registerDelays [] (pre ++ ((t1, d1) :: mid))).Pairwise
      (fun u v => u.2 ≤ v.2) :=
    registerDelays_pairwise _ [] (List.Pairwise.nil)
  have hmem : (t1, d1) ∈ registerDelays [] (pre ++ ((t1, d1) :: mid)) := by
    rw [registerDelays_append, registerDelays_cons]
    exact registerDelays_mem mid _ _ (mem_insertSleepingQueue_self _ _)
  refine ⟨?_, ?_, ?_⟩
  · intro hle
    rw [registerDelays_append, registerDelays_cons]
    exact registerDelays_sublist post _ _
      (before_insertSleepingQueue (t1, d1) (t2, d2) _ hq2 hmem hle)
  · intro hlt
    rw [registerDelays_append, registerDelays_cons]
    exact registerDelays_sublist post _ _
      (after_insertSleepingQueue (t1, d1) (t2, d2) _ hq2 hmem hlt)
  · intro now iomgr tso us_delay hpos
    have hns : ¬us_delay ≤ 0 := by omega
    simp [syncDelay, hns]

/-- C4: the deadlock query `anyPendingTimeoutsOrIO` is a pure function of the
per-worker state (it returns a boolean and the state it was applied to is
untouched); it returns true iff at least one thread is currently suspended
on that worker (blocked on I/O or on a timer), and false exactly when both
queues are empty, i.e. once every such thread has been removed. -/
theorem anyPending_iff_suspended (iomgr : CapIOManager) :
    ( anyPendingTimeoutsOrIO iomgr = true ↔ ∃ t, t ∈ suspendedThreads iomgr)
    ∧ ( anyPendingTimeoutsOrIO iomgr = false ↔
        iomgr.blocked_queue = [] ∧ iomgr.sleeping_queue = []) := by
  obtain ⟨bq, sq⟩ := iomgr
  cases bq <;> cases sq <;>
    simp [ anyPendingTimeoutsOrIO, suspendedThreads]

/-- C6: when no backend name is supplied, resolution uses the designated
default of the current (platform, threading-mode): the `IOMGR_DEFAULT_STR`
name chosen by IOManager.h lines 75-93 is handed to the flag parser; and
`IOMGR_DEFAULT_STR` is undefined - the header's `#error`, a build-time
failure, so no runtime resolution exists - exactly when no default flag for
the current RTS way is configured. -/
theorem default_manager_selection (c : BuildConfig) :
    (c.threaded_rts = true → c.iomgr_default_threaded_mio = true →
      resolveManager c none = some (parseIOManagerFlag c "mio"))
    ∧ (c.threaded_rts = true → c.iomgr_default_threaded_mio = false →
        c.iomgr_default_threaded_winio = true →
      resolveManager c none = some (parseIOManagerFlag c "winio"))
    ∧ (c.threaded_rts = false → c.iomgr_default_non_threaded_select = true →
      resolveManager c none = some (parseIOManagerFlag c "select"))
    ∧ (c.threaded_rts = false → c.iomgr_default_non_threaded_select = false →
        c.iomgr_default_non_threaded_winio = true →
      resolveManager c none = some (parseIOManagerFlag c "winio"))
    ∧ (c.threaded_rts = false → c.iomgr_default_non_threaded_select = false →
        c.iomgr_default_non_threaded_winio = false →
        c.iomgr_default_non_threaded_win32_legacy = true →
      resolveManager c none = some (parseIOManagerFlag c "win32-legacy"))
    ∧ (iomgrDefaultStr c = none ↔
        (c.threaded_rts = true ∧ c.iomgr_default_threaded_mio = false
            ∧ c.iomgr_default_threaded_winio = false)
        ∨ (c.threaded_rts = false ∧ c.iomgr_default_non_threaded_select = false
            ∧ c.iomgr_default_non_threaded_winio = false
            ∧ c.iomgr_default_non_threaded_win32_legacy = false))
    ∧ (resolveManager c none = none ↔ iomgrDefaultStr c = none) := by
  rcases c with ⟨bs, bm, bw, bl, th, mg, dtm, dtw, dns, dnw, dnl⟩
  cases th <;> cases dtm <;> cases dtw <;> cases dns <;> cases dnw <;>
    cases dnl <;> simp [resolveManager, iomgrDefaultStr]

/-- C7: the per-worker I/O state's shape follows the enabled backend variant
(IOManager.h lines 191-214): with select enabled it has the blocked-on-I/O
queue head and tail and the timer `sleeping_queue` and no control fd; with
MIO-POSIX enabled it has only the control fd; with win32-legacy enabled it
has the blocked-queue fields and no control fd. Moreover, in the operational
model the blocked queue is FIFO (appending keeps arrival order at the tail)
and the sleeping queue stays ordered by wake-time under insertion. -/
theorem capIOManager_shape_by_variant (c : BuildConfig) :
    (enabledSelect c = true →
      (capIOManagerShape c).has_blocked_queue_hd = true
      ∧ (capIOManagerShape c).has_blocked_queue_tl = true
      ∧ (capIOManagerShape c).has_sleeping_queue = true
      ∧ (capIOManagerShape c).has_control_fd = false)
    ∧ (enabledMioPosix c = true →
      (capIOManagerShape c).has_control_fd = true
      ∧ (capIOManagerShape c).has_blocked_queue_hd = false
      ∧ (capIOManagerShape c).has_blocked_queue_tl = false
      ∧ (capIOManagerShape c).has_sleeping_queue = false)
    ∧ (enabledWin32Legacy c = true →
      (capIOManagerShape c).has_blocked_queue_hd = true
      ∧ (capIOManagerShape c).has_blocked_queue_tl = true
      ∧ (capIOManagerShape c).has_control_fd = false)
    ∧ (∀ (iomgr : CapIOManager) (tso : Nat),
        (appendToIOBlockedQueue iomgr tso).blocked_queue
          = iomgr.blocked_queue ++ [tso])
    ∧ (∀ (e : Nat × Int) (q : List (Nat × Int)),
        q.Pairwise (fun u v => u.2 ≤ v.2) →
        (insertSleepingQueue e q).Pairwise (fun u v => u.2 ≤ v.2)) := by
  rcases c with ⟨bs, bm, bw, bl, th, mg, dtm, dtw, dns, dnw, dnl⟩
  refine ⟨?_, ?_, ?_, ?_, ?_⟩
  · intro h
    cases bs <;> cases bl <;> cases th <;> cases bm <;> cases mg <;>
      simp_all [capIOManagerShape, enabledSelect, enabledWin32Legacy,
        enabledMioPosix]
  · intro h
    cases bs <;> cases bl <;> cases th <;> cases bm <;> cases mg <;>
      simp_all [capIOManagerShape, enabledSelect, enabledWin32Legacy,
        enabledMioPosix]
  · intro h
    cases bs <;> cases bl <;> cases th <;> cases bm <;> cases mg <;>
      simp_all [capIOManagerShape, enabledSelect, enabledWin32Legacy,
        enabledMioPosix]
  · intro iomgr tso
    rfl
  · intro e q hq
    exact pairwise_insertSleepingQueue e q hq

/-- C8: the diagnostics surface: `IOMGRS_ENABLED_STR` equals the names of
the compiled-in variants, space-joined (each with its leading space) in
header order, and `IOMGR_DEFAULT_STR` is either absent (a build error) or
one of the known manager names, the threaded defaults being "mio"/"winio"
and the non-threaded ones "select"/"winio"/"win32-legacy". -/
theorem diagnostics_strings (c : BuildConfig) :
    iomgrsEnabledStr c
      = String.join ((enabledIOManagerNames c).map (fun n => " " ++ n))
    ∧ (iomgrDefaultStr c = none
        ∨ ∃ d ∈ knownIOManagerNames, iomgrDefaultStr c = some d)
    ∧ (c.threaded_rts = true → iomgrDefaultStr c = none
        ∨ iomgrDefaultStr c = some "mio" ∨ iomgrDefaultStr c = some "winio")
    ∧ (c.threaded_rts = false → iomgrDefaultStr c = none
        ∨ iomgrDefaultStr c = some "select" ∨ iomgrDefaultStr c = some "winio"
        ∨ iomgrDefaultStr c = some "win32-legacy") := by
  rcases c with ⟨bs, bm, bw, bl, th, mg, dtm, dtw, dns, dnw, dnl⟩
  refine ⟨?_, ?_, ?_, ?_⟩
  · cases bs <;> cases bm <;> cases bw <;> cases bl <;> cases th <;>
      cases mg <;> rfl
  · cases th <;> cases dtm <;> cases dtw <;> cases dns <;> cases dnw <;>
      cases dnl <;> simp [iomgrDefaultStr, knownIOManagerNames]
  · cases th <;> cases dtm <;> cases dtw <;>
      simp [iomgrDefaultStr]
  · cases th <;> cases dns <;> cases dnw <;> cases dnl <;>
      simp [iomgrDefaultStr]

/-- The `IOManagerType` enum for configuration `c` contains a member iff
its `IOMGR_ENABLED_*` guard holds. -/
theorem mem_ioManagerTypeMembers (c : BuildConfig) (v : IOManagerType) :
    v ∈ ioManagerTypeMembers c ↔ enabledFor c v = true := by
  cases v <;> simp only [ioManagerTypeMembers, enabledFor] <;>
    split_ifs <;> simp_all

/-- C9: for every build configuration the `IOManagerType` enumeration
contains exactly the enabled variants: select and win32-legacy only exist in
non-threaded builds, an enabled MIO form only exists in threaded builds and
is exactly one of the POSIX and Windows forms (POSIX iff not mingw32,
Windows iff mingw32, never both), so any value of the `iomgr_type` variable
ranges over members that are compiled in for the current platform and
threading mode. -/
theorem ioManagerType_members_enabled (c : BuildConfig) :
    (∀ v : IOManagerType, v ∈ ioManagerTypeMembers c ↔ enabledFor c v = true)
    ∧ (enabledSelect c = true → c.threaded_rts = false)
    ∧ (enabledWin32Legacy c = true → c.threaded_rts = false)
    ∧ ((enabledMioPosix c = true ∨ enabledMioWin32 c = true) →
        c.threaded_rts = true)
    ∧ ¬(enabledMioPosix c = true ∧ enabledMioWin32 c = true)
    ∧ (c.iomgr_build_mio = true → c.threaded_rts = true →
        (enabledMioPosix c = true ↔ c.mingw32_host_os = false)
        ∧ (enabledMioWin32 c = true ↔ c.mingw32_host_os = true)) := by
  refine ⟨mem_ioManagerTypeMembers c, ?_⟩
  rcases c with ⟨bs, bm, bw, bl, th, mg, dtm, dtw, dns, dnw, dnl⟩
  cases bm <;> cases th <;> cases mg <;> cases bs <;> cases bl <;>
    simp [enabledSelect, enabledMioPosix, enabledMioWin32, enabledWin32Legacy]

/-- C10: `appendToIOBlockedQueue` is declared exactly when the select or the
win32-legacy manager is enabled, i.e. when one of those managers is built
and the RTS way is non-threaded (IOManager.h line 293); it appends the given
thread at the tail of the worker's blocked-on-I/O queue and changes nothing
else, so the queue built by successive appends from empty lists the threads
exactly in arrival order (FIFO). -/
theorem appendToIOBlockedQueue_decl_and_fifo (c : BuildConfig) :
    ( appendToIOBlockedQueueDeclared c = true ↔
        ((c.iomgr_build_select = true ∨ c.iomgr_build_win32_legacy = true)
          ∧ c.threaded_rts = false))
    ∧ (∀ (iomgr : CapIOManager) (tso : Nat),
        appendToIOBlockedQueue iomgr tso
          = CapIOManager.mk (iomgr.blocked_queue ++ [tso]) iomgr.sleeping_queue)
    ∧ (∀ (arrivals : List Nat) (sq : List (Nat × Int)),
        (arrivals.foldl (fun m t => appendToIOBlockedQueue m t)
            (CapIOManager.mk [] sq)).blocked_queue = arrivals) := by
  refine ⟨?_, ?_, ?_⟩
  · simp only [appendToIOBlockedQueueDeclared, enabledSelect,
      enabledWin32Legacy, Bool.or_eq_true, Bool.and_eq_true,
      Bool.not_eq_true']
    tauto
  · intro iomgr tso
    rfl
  · intro arrivals sq
    rw [blocked_queue_foldl arrivals [] sq, List.nil_append]
